import Mathlib

/-!
# movie_metadata_adder: filename parsing, fuzzy search, metadata mapping, container rewrite

A shallow embedding of the Go packages `internal/parser`, `internal/tmdb` and
`internal/metadata`.

Modelling conventions.
* A Go `string` is a list of Unicode code points (`GoString`); the model covers
  valid UTF-8 text.
* Paths follow the Unix flavour of `path/filepath` (separator `/`, no volume names).
* A run-time panic, a returned `error` and a normal return are distinct outcomes.
* The file system, the `ffmpeg` subprocess and the TMDB service are external; their
  outcomes are supplied by an explicit environment and every call is logged.
-/

set_option autoImplicit false

namespace MovieMetadataAdder

/-- A Go string: the sequence of its Unicode code points. -/
abbrev GoString := List Char

/-! ## Go standard library: `unicode`, `strings` -/

namespace strings

/-- The predicate `unicode.IsSpace`: the Unicode White_Space property. -/
def isSpace (c : Char) : Bool :=
  let n := c.toNat
  n == 0x09 || n == 0x0A || n == 0x0B || n == 0x0C || n == 0x0D || n == 0x20 ||
  n == 0x85 || n == 0xA0 || n == 0x1680 || (0x2000 ≤ n && n ≤ 0x200A) ||
  n == 0x2028 || n == 0x2029 || n == 0x202F || n == 0x205F || n == 0x3000

/-- The call `strings.ReplaceAll(s, old, new)` for one-character `old` and `new`. -/
def ReplaceAll (s : GoString) (old new : Char) : GoString :=
  s.map (fun c => if c == old then new else c)

/-- The function `strings.TrimSuffix`. -/
def TrimSuffix (s suffix : GoString) : GoString :=
  if suffix.isSuffixOf s then s.take (s.length - suffix.length) else s

/-- The function `strings.TrimSpace`: leading and trailing white space removed. -/
def TrimSpace (s : GoString) : GoString :=
  ((s.dropWhile isSpace).reverse.dropWhile isSpace).reverse

/-- Loop of `strings.Fields`: `cur` is the field being read (reversed). -/
def fieldsAux : GoString → GoString → List GoString
  | [], cur => if cur.isEmpty then [] else [cur.reverse]
  | c :: cs, cur =>
    if isSpace c then
      (if cur.isEmpty then fieldsAux cs [] else cur.reverse :: fieldsAux cs [])
    else fieldsAux cs (c :: cur)

/-- The function `strings.Fields`: the maximal runs of non-space characters. -/
def Fields (s : GoString) : List GoString := fieldsAux s []

/-- The function `strings.Join`. -/
def Join : List GoString → GoString → GoString
  | [], _ => []
  | e :: es, sep => e ++ (es.map (fun x => sep ++ x)).flatten

end strings

/-! ## Go standard library: `path/filepath` (Unix) -/

namespace filepath

/-- The path separator test `os.IsPathSeparator`. -/
def isPathSeparator (c : Char) : Bool := c == '/'

/-- Backward scan of `filepath.Ext` over the reversed path; `acc` is the text
already passed. -/
def extScan : GoString → GoString → GoString
  | [], _ => []
  | c :: cs, acc =>
    if isPathSeparator c then []
    else if c == '.' then c :: acc
    else extScan cs (c :: acc)

/-- The function `filepath.Ext`: the suffix starting at the last dot of the last
path element, or the empty string. -/
def Ext (path : GoString) : GoString := extScan path.reverse []

/-- The text after the last separator of `path` (all of `path` when there is none). -/
def lastElem (path : GoString) : GoString :=
  (path.reverse.takeWhile (fun c => !isPathSeparator c)).reverse

/-- The function `filepath.Base`. -/
def Base (path : GoString) : GoString :=
  if path.isEmpty then ['.']
  else
    let p := (path.reverse.dropWhile isPathSeparator).reverse
    let e := lastElem p
    if e.isEmpty then ['/'] else e

/-- The elements of `path` between separators (empty elements included). -/
def splitSep : GoString → List GoString
  | [] => [[]]
  | c :: cs =>
    if isPathSeparator c then [] :: splitSep cs
    else
      match splitSep cs with
      | [] => [[c]]
      | e :: es => (c :: e) :: es

/-- The output buffer of `filepath.Clean`, element by element: `out` holds the
elements written so far and `dotdot` how many leading elements a `..` must not
remove. -/
structure CleanState where
  out : List GoString
  dotdot : Nat

/-- One round of the loop of `filepath.Clean`, on the path element `e`: an empty
element and `.` are dropped, `..` removes the last element written (or is kept,
in a path that is not rooted and has nothing left to remove), every other
element is appended. -/
def cleanStep (rooted : Bool) (st : CleanState) (e : GoString) : CleanState :=
  if e.isEmpty then st
  else if e = ['.'] then st
  else if e = ['.', '.'] then
    if st.dotdot < st.out.length then { st with out := st.out.dropLast }
    else if !rooted then { out := st.out ++ [e], dotdot := st.out.length + 1 }
    else st
  else { st with out := st.out ++ [e] }

/-- The text of the output buffer of `filepath.Clean`: the leading separator of
a rooted path, then the elements with separators between them. -/
def renderPath (rooted : Bool) (out : List GoString) : GoString :=
  (if rooted then ['/'] else []) ++ strings.Join out ['/']

/-- The function `filepath.Clean`. -/
def Clean (path : GoString) : GoString :=
  match path with
  | [] => ['.']
  | c :: _ =>
    let rooted := isPathSeparator c
    let st := (splitSep path).foldl (cleanStep rooted) { out := [], dotdot := 0 }
    let out := renderPath rooted st.out
    if out.isEmpty then ['.'] else out

/-- The function `filepath.Dir`: everything up to the last separator, cleaned. -/
def Dir (path : GoString) : GoString :=
  Clean (path.reverse.dropWhile (fun c => !isPathSeparator c)).reverse

/-- The function `filepath.Join`: the elements from the first non-empty one on,
joined by separators and cleaned. -/
def Join : List GoString → GoString
  | [] => []
  | e :: es => if e.isEmpty then Join es else Clean (strings.Join (e :: es) ['/'])

end filepath

/-! ## Go standard library: `regexp` (leftmost-first matching) -/

namespace regexp

/-- Regular expressions, as far as the program's patterns need them. -/
inductive Regex where
  | cls (p : Char → Bool)
  | seq (a b : Regex)
  | alt (a b : Regex)
  | opt (a : Regex)
  | star (a : Regex)
  | group (a : Regex)

/-- Greedy iteration: `step` is tried first, then the continuation. An iteration
has to consume input, so `n = s.length` rounds are enough. -/
def starLoop {α : Type}
    (step : GoString → Option GoString → (GoString → Option GoString → Option α) → Option α) :
    Nat → GoString → Option GoString → (GoString → Option GoString → Option α) → Option α
  | 0, s, cap, k => k s cap
  | n + 1, s, cap, k =>
    match step s cap (fun s1 cap1 =>
        if s1.length < s.length then starLoop step n s1 cap1 k else none) with
    | some r => some r
    | none => k s cap

/-- Backtracking matcher with leftmost-first priorities: the first alternative
before the second, one more iteration before stopping. The continuation receives
the unread input and the text of the capture group. -/
def Regex.run {α : Type} :
    Regex → GoString → Option GoString → (GoString → Option GoString → Option α) → Option α
  | .cls p, s, cap, k =>
    match s with
    | [] => none
    | c :: cs => if p c then k cs cap else none
  | .seq a b, s, cap, k => Regex.run a s cap (fun s1 cap1 => Regex.run b s1 cap1 k)
  | .alt a b, s, cap, k =>
    match Regex.run a s cap k with
    | some r => some r
    | none => Regex.run b s cap k
  | .opt a, s, cap, k =>
    match Regex.run a s cap k with
    | some r => some r
    | none => k s cap
  | .star a, s, cap, k =>
    starLoop (fun s1 cap1 k1 => Regex.run a s1 cap1 k1) s.length s cap k
  | .group a, s, cap, k =>
    Regex.run a s cap (fun s1 _ => k s1 (some (s.take (s.length - s1.length))))

/-- The preferred match starting at the head of `s`: the unread rest and the
text of the capture group. -/
def Regex.matchAt (r : Regex) (s : GoString) : Option (GoString × Option GoString) :=
  r.run s none (fun rest cap => some (rest, cap))

/-- The leftmost match in `s`: matched text and text of the capture group. -/
def Regex.find (r : Regex) : GoString → Option (GoString × Option GoString)
  | [] =>
    match r.matchAt [] with
    | some (_, cap) => some ([], cap)
    | none => none
  | c :: cs =>
    match r.matchAt (c :: cs) with
    | some (rest, cap) => some ((c :: cs).take ((c :: cs).length - rest.length), cap)
    | none => Regex.find r cs

/-- The method `FindStringSubmatch` for a pattern with one capture group: `nil`
(the empty list) without a match, else the matched text and the group's text. -/
def Regex.FindStringSubmatch (r : Regex) (s : GoString) : List GoString :=
  match r.find s with
  | none => []
  | some (whole, cap) => [whole, cap.getD []]

/-- Loop of `ReplaceAllString`: every match, left to right, is replaced. The
program's patterns match non-empty text only; a position without a non-empty
match is copied. -/
def Regex.replaceAllAux (r : Regex) (repl : GoString) : Nat → GoString → GoString
  | 0, s => s
  | _ + 1, [] => []
  | n + 1, c :: cs =>
    match r.matchAt (c :: cs) with
    | some (rest, _) =>
      if rest.length < (c :: cs).length then repl ++ Regex.replaceAllAux r repl n rest
      else c :: Regex.replaceAllAux r repl n cs
    | none => c :: Regex.replaceAllAux r repl n cs

/-- The method `ReplaceAllString` with a replacement text free of `$`. -/
def Regex.ReplaceAllString (r : Regex) (s repl : GoString) : GoString :=
  r.replaceAllAux repl s.length s

/-- One literal character. -/
def Regex.chr (c : Char) : Regex := .cls (fun x => x == c)

/-- One character in the range `lo` to `hi`. -/
def Regex.range (lo hi : Char) : Regex := .cls (fun x => lo.toNat ≤ x.toNat && x.toNat ≤ hi.toNat)

/-- The class `\d` (ASCII digits). -/
def Regex.digit : Regex := Regex.range '0' '9'

/-- The pattern `a+`. -/
def Regex.plus (a : Regex) : Regex := .seq a (.star a)

/-- Case folding of the flag `(?i)`: does `x` match the pattern character `c`? Besides
the other ASCII case, `k` folds to the Kelvin sign U+212A and `s` to the long s U+017F. -/
def foldEq (c x : Char) : Bool :=
  let a := c.toNat
  let b := x.toNat
  b == a ||
  (0x41 ≤ a && a ≤ 0x5A && b == a + 32) ||
  (0x61 ≤ a && a ≤ 0x7A && b + 32 == a) ||
  ((a == 0x4B || a == 0x6B) && b == 0x212A) ||
  ((a == 0x53 || a == 0x73) && b == 0x17F)

/-- A literal under the flag `(?i)`. -/
def Regex.litI : GoString → Regex
  | [] => .opt (.cls (fun _ => false))
  | [c] => .cls (foldEq c)
  | c :: cs => .seq (.cls (foldEq c)) (Regex.litI cs)

/-- An alternation of the listed patterns, in order. -/
def Regex.alts : List Regex → Regex
  | [] => .cls (fun _ => false)
  | [r] => r
  | r :: rs => .alt r (Regex.alts rs)

end regexp

/-! ## Package `parser` -/

namespace parser

open strings filepath regexp

/-- The struct `parser.MovieInfo`. -/
structure MovieInfo where
  Title : GoString
  Year : GoString
deriving DecidableEq, Repr

/-- The pattern `\(?([12][0-9]{3})\)?`. -/
def yearRegex : Regex :=
  .seq (.opt (Regex.chr '('))
    (.seq (.group (.seq (.alt (Regex.chr '1') (Regex.chr '2'))
        (.seq Regex.digit (.seq Regex.digit Regex.digit))))
      (.opt (Regex.chr ')')))

/-- The vocabulary of quality, source, codec and release-group markers. -/
def qualityMarkers : List Regex :=
  (["720p", "1080p", "2160p", "4k", "BRRip", "BDRip", "BluRay", "WEBRip", "HDTV", "WEB-DL",
    "x264", "x265", "10bit", "HEVC", "AAC", "AC3", "DTS", "GalaxyRG", "RARBG", "YTS",
    "YIFY"].map (fun w => Regex.litI w.toList)) ++
  [.seq (Regex.plus Regex.digit) (Regex.litI "MB".toList),
   .seq (Regex.plus Regex.digit) (Regex.litI "GB".toList)]

/-- The pattern `(?i)(720p|1080p|...|\d+MB|\d+GB).*`; the dot matches every
character but the newline. -/
def qualityRegex : Regex :=
  .seq (.group (Regex.alts qualityMarkers)) (.star (.cls (fun c => c != '\n')))

/-- The pattern `\s+`; the class `\s` is `[\t\n\f\r ]`. -/
def spaceRegex : Regex :=
  Regex.plus (.cls (fun c => c == '\t' || c == '\n' || c == '\x0c' || c == '\r' || c == ' '))

/-- The function `parser.ParseFilename`. -/
def ParseFilename (filePath : GoString) : MovieInfo :=
  let filename := Base filePath
  let filename := TrimSuffix filename (Ext filename)
  let cleanName := ReplaceAll filename '.' ' '
  let cleanName := ReplaceAll cleanName '_' ' '
  let yearMatch := yearRegex.FindStringSubmatch cleanName
  let year := if yearMatch.length > 1 then yearMatch.getD 1 [] else []
  let cleanName := yearRegex.ReplaceAllString cleanName []
  let cleanName := qualityRegex.ReplaceAllString cleanName []
  let cleanName := spaceRegex.ReplaceAllString cleanName [' ']
  let cleanName := TrimSpace cleanName
  { Title := cleanName, Year := year }

end parser

/-! ## Package `tmdb` -/

namespace tmdb

open strings

/-- The struct `tmdb.SearchResult`. -/
structure SearchResult where
  ID : Int
  Title : GoString
  ReleaseDate : GoString
  Overview : GoString
  PosterPath : GoString
deriving DecidableEq, Repr

/-- An element of `MovieDetails.Genres`. -/
structure Genre where
  Name : GoString
deriving DecidableEq, Repr

/-- An element of `MovieDetails.Credits.Cast`. -/
structure CastMember where
  Name : GoString
deriving DecidableEq, Repr

/-- An element of `MovieDetails.Credits.Crew`. -/
structure CrewMember where
  Name : GoString
  Job : GoString
deriving DecidableEq, Repr

/-- The field `MovieDetails.Credits`. -/
structure Credits where
  Cast : List CastMember
  Crew : List CrewMember
deriving DecidableEq, Repr

/-- The struct `tmdb.MovieDetails`. -/
structure MovieDetails where
  ID : Int
  Title : GoString
  ReleaseDate : GoString
  Overview : GoString
  PosterPath : GoString
  Genres : List Genre
  Credits : Credits
deriving DecidableEq, Repr

/-- How a call ends: a normal return, a returned `error`, or a run-time panic. -/
inductive Outcome (α : Type) where
  | ok (a : α)
  | err (msg : String)
  | panic
deriving DecidableEq, Repr

/-- The method `Client.SearchMovies` with the service behind it: one blocking
round trip for a term and a year, answering with a result list or an error and
moving the service to its next state. -/
abbrev Service (σ : Type) := GoString → GoString → σ → Except String (List SearchResult) × σ

/-- A run of `FuzzySearch`: its outcome, the service state afterwards and the
terms sent to `SearchMovies`, in order. -/
structure SearchRun (σ : Type) where
  outcome : Outcome (List SearchResult)
  state : σ
  sent : List GoString

/-- The inner loop of `FuzzySearch`: a result whose ID is not in `seenIDs` is
recorded there and appended to `allResults`. -/
def collect : List Int → List SearchResult → List SearchResult → List Int × List SearchResult
  | seenIDs, allResults, [] => (seenIDs, allResults)
  | seenIDs, allResults, result :: rest =>
    if seenIDs.contains result.ID then collect seenIDs allResults rest
    else collect (result.ID :: seenIDs) (allResults ++ [result]) rest

/-- The outer loop of `FuzzySearch` over the search terms. -/
def searchLoop {σ : Type} (SearchMovies : Service σ) (year : GoString) :
    List GoString → σ → List Int → List SearchResult → List GoString → SearchRun σ
  | [], s, _, allResults, sent => { outcome := .ok allResults, state := s, sent := sent }
  | term :: rest, s, seenIDs, allResults, sent =>
    if term.isEmpty then searchLoop SearchMovies year rest s seenIDs allResults sent
    else
      match SearchMovies term year s with
      | (.error e, s1) => { outcome := .err e, state := s1, sent := sent ++ [term] }
      | (.ok results, s1) =>
        let acc := collect seenIDs allResults results
        searchLoop SearchMovies year rest s1 acc.1 acc.2 (sent ++ [term])

/-- The method `Client.FuzzySearch`. The three search terms are computed first;
indexing `strings.Fields(query)[0]` panics when the query has no field. -/
def FuzzySearch {σ : Type} (SearchMovies : Service σ) (query year : GoString) (s : σ) :
    SearchRun σ :=
  let fields := Fields query
  match fields[0]? with
  | none => { outcome := .panic, state := s, sent := [] }
  | some first =>
    let searchTerms := [query, Join (fields.take (min 2 fields.length)) [' '], first]
    searchLoop SearchMovies year searchTerms s [] [] []

/-- The deduplication as the specification words it: `earlier` holds the entries
that precede in the concatenation; an entry whose ID occurs among them is removed,
every other entry is kept in place. -/
def specDropSeen (earlier : List SearchResult) : List SearchResult → List SearchResult
  | [] => []
  | r :: rs =>
    if earlier.any (fun e => e.ID == r.ID) then specDropSeen (earlier ++ [r]) rs
    else r :: specDropSeen (earlier ++ [r]) rs

/-- The specification's result list for a concatenation of tier results. -/
def specFirstSeen (l : List SearchResult) : List SearchResult := specDropSeen [] l

end tmdb

/-! ## The external tool `ffmpeg` -/

namespace ffmpeg

/-- The type of a stream of a media container. -/
inductive StreamKind where
  | video | audio | subtitle | data | attachment
deriving DecidableEq, Repr

/-- A stream of an input file; cover art is a video stream with the
`attached_pic` disposition. -/
structure Stream where
  kind : StreamKind
  attachedPic : Bool
deriving DecidableEq, Repr

/-- Stream-type letters of a stream specifier, as the ffmpeg manual gives them:
`v` matches all video streams, `V` only video streams that are not attached
pictures, `a` audio, `s` subtitle, `d` data, `t` attachments. -/
def typeMatches (letter : Char) (st : Stream) : Bool :=
  if letter == 'v' then st.kind == .video
  else if letter == 'V' then st.kind == .video && !st.attachedPic
  else if letter == 'a' then st.kind == .audio
  else if letter == 's' then st.kind == .subtitle
  else if letter == 'd' then st.kind == .data
  else if letter == 't' then st.kind == .attachment
  else false

/-- Does the value of a `-map` option of the forms `N`, `N:x` or `N:x?` (one-digit
input index `N`, type letter `x`) select the stream `st` of input `input`? -/
def mapSelects (value : GoString) (input : Nat) (st : Stream) : Bool :=
  match value with
  | [n] => n.toNat == 48 + input
  | [n, ':', x] => n.toNat == 48 + input && typeMatches x st
  | [n, ':', x, '?'] => n.toNat == 48 + input && typeMatches x st
  | _ => false

/-- The options of the argument vectors built here that are followed by a value. -/
def takesValue (a : GoString) : Bool :=
  a = "-i".toList || a = "-map".toList || a = "-metadata".toList || a = "-c".toList ||
  a = "-c:v:1".toList || a = "-disposition:v:1".toList

/-- The values of the `-map` options of an argument vector; the value of another
option is skipped with its option. -/
def mapValues : List GoString → List GoString
  | [] => []
  | [_] => []
  | a :: v :: rest =>
    if a = "-map".toList then v :: mapValues rest
    else if takesValue a then mapValues rest
    else mapValues (v :: rest)

/-- The streams of input `input` that the argument vector maps into the output. -/
def selected (args : List GoString) (input : Nat) (streams : List Stream) : List Stream :=
  streams.filter (fun st => (mapValues args).any (fun v => mapSelects v input st))

end ffmpeg

/-! ## Package `metadata` -/

namespace metadata

open strings filepath

/-- The struct `metadata.MovieMetadata`; `Poster` is a byte buffer. -/
structure MovieMetadata where
  Title : GoString
  Year : GoString
  Director : GoString
  Actors : GoString
  Genres : GoString
  Poster : List Nat
deriving DecidableEq, Repr

/-- The file system: the paths that exist. A path stands for its spelling, so two
spellings of one file are two entries; membership is stated only for spellings
the program itself hands to the operating system. -/
abbrev FS := List GoString

/-- The outcomes of the external operations of one run of `UpdateMovieFile`. -/
structure Env where
  /-- The call `exec.LookPath("ffmpeg")` finds the tool. -/
  lookPathOk : Bool
  /-- The call `os.WriteFile` of the poster succeeds. -/
  writeOk : Bool
  /-- A failed `os.WriteFile` leaves a (partial) file behind. -/
  writeLeavesFile : Bool
  /-- The `ffmpeg` process exits with status zero (given that its inputs exist). -/
  ffmpegOk : Bool
  /-- A failed `ffmpeg` run leaves a (partial) output file behind. -/
  ffmpegLeavesFile : Bool
  /-- The call `os.Remove` is permitted on the path (given that it exists). -/
  removeOk : GoString → Bool
  /-- The call `os.Rename` is permitted (given that the old path exists). -/
  renameOk : Bool

/-- An operation on the world outside the process. -/
inductive Op where
  | writeFile (path : GoString)
  | ffmpeg (args : List GoString)
  | remove (path : GoString)
  | rename (oldpath newpath : GoString)
deriving DecidableEq, Repr

/-- The errors `UpdateMovieFile` returns. -/
inductive UpdateError where
  | ffmpegMissing
  | writeFailed
  | ffmpegFailed
  | removeFailed
  | renameFailed
deriving DecidableEq, Repr

/-- The world during a run: the existing paths and the operations issued so far. -/
structure World where
  fs : FS
  ops : List Op
deriving DecidableEq, Repr

/-- The call `os.WriteFile(path, data, 0644)`. -/
def osWriteFile (env : Env) (path : GoString) (w : World) : Bool × World :=
  if env.writeOk then (true, { fs := path :: w.fs, ops := w.ops ++ [.writeFile path] })
  else (false, { fs := if env.writeLeavesFile then path :: w.fs else w.fs,
                 ops := w.ops ++ [.writeFile path] })

/-- The call `os.Remove(path)`. -/
def osRemove (env : Env) (path : GoString) (w : World) : Bool × World :=
  if env.removeOk path && w.fs.contains path then
    (true, { fs := w.fs.filter (fun p => p != path), ops := w.ops ++ [.remove path] })
  else (false, { fs := w.fs, ops := w.ops ++ [.remove path] })

/-- The call `os.Rename(oldpath, newpath)`. -/
def osRename (env : Env) (oldpath newpath : GoString) (w : World) : Bool × World :=
  if env.renameOk && w.fs.contains oldpath then
    (true, { fs := newpath :: w.fs.filter (fun p => p != oldpath),
             ops := w.ops ++ [.rename oldpath newpath] })
  else (false, { fs := w.fs, ops := w.ops ++ [.rename oldpath newpath] })

/-- The call `exec.Command("ffmpeg", args...).CombinedOutput()`: the process reads
`inputs` and writes `output`; exit status zero means the output file exists. -/
def runFfmpeg (env : Env) (args : List GoString) (inputs : List GoString) (output : GoString)
    (w : World) : Bool × World :=
  if env.ffmpegOk && inputs.all (fun p => w.fs.contains p) then
    (true, { fs := output :: w.fs, ops := w.ops ++ [.ffmpeg args] })
  else (false, { fs := if env.ffmpegLeavesFile then output :: w.fs else w.fs,
                 ops := w.ops ++ [.ffmpeg args] })

/-- The `-metadata key=value` pair of a tag, nothing for an empty value. -/
def metadataArg (key value : GoString) : List GoString :=
  if value.isEmpty then [] else ["-metadata".toList, key ++ '=' :: value]

/-- The argument vector `UpdateMovieFile` builds for `ffmpeg`; `posterPath` is
used when poster bytes are present. -/
def ffmpegArgs (filePath posterPath tempFile : GoString) (metadata : MovieMetadata) :
    List GoString :=
  let args := ["-i".toList, filePath]
  let args :=
    if metadata.Poster.length > 0 then
      args ++ ["-i".toList, posterPath] ++
        ["-map".toList, "0:v".toList, "-map".toList, "0:a?".toList, "-map".toList,
          "0:s?".toList, "-map".toList, "1".toList]
    else
      args ++ ["-map".toList, "0:v".toList, "-map".toList, "0:a?".toList, "-map".toList,
        "0:s?".toList]
  let args := args ++ metadataArg "title".toList metadata.Title
  let args := args ++
    (if metadata.Year.isEmpty then []
     else ["-metadata".toList, "year=".toList ++ metadata.Year,
           "-metadata".toList, "date=".toList ++ metadata.Year])
  let args := args ++ metadataArg "director".toList metadata.Director
  let args := args ++ metadataArg "actors".toList metadata.Actors
  let args := args ++ metadataArg "genre".toList metadata.Genres
  let args := args ++ ["-c".toList, "copy".toList]
  let args :=
    if metadata.Poster.length > 0 then
      args ++ ["-c:v:1".toList, "png".toList, "-disposition:v:1".toList, "attached_pic".toList]
    else args
  args ++ ["-y".toList, tempFile]

deriving instance DecidableEq for Except

/-- The result of a run of `UpdateMovieFile`: the returned value and the world
afterwards. -/
structure UpdateRun where
  result : Except UpdateError GoString
  world : World
deriving DecidableEq

/-- The part of `UpdateMovieFile` from the `ffmpeg` call on (lines 82 to 104). -/
def remuxAndReplace (env : Env) (filePath dir ext tempFile : GoString) (inputs : List GoString)
    (args : List GoString) (metadata : MovieMetadata) (w : World) : UpdateRun :=
  let r := runFfmpeg env args inputs tempFile w
  if !r.1 then { result := .error .ffmpegFailed, world := r.2 }
  else
    let newName := metadata.Title ++ " (".toList ++ metadata.Year ++ ")".toList ++ ext
    let newPath := filepath.Join [dir, newName]
    let r1 := osRemove env filePath r.2
    if !r1.1 then
      let r2 := osRemove env tempFile r1.2
      { result := .error .removeFailed, world := r2.2 }
    else
      let r3 := osRename env tempFile newPath r1.2
      if !r3.1 then { result := .error .renameFailed, world := r3.2 }
      else { result := .ok newPath, world := r3.2 }

/-- The function `metadata.UpdateMovieFile`, run in the file system `fs`. -/
def UpdateMovieFile (env : Env) (fs : FS) (filePath : GoString) (metadata : MovieMetadata) :
    UpdateRun :=
  let w : World := { fs := fs, ops := [] }
  if !env.lookPathOk then { result := .error .ffmpegMissing, world := w }
  else
    let ext := Ext filePath
    let dir := Dir filePath
    let tempFile := filepath.Join [dir, "temp_metadata".toList ++ ext]
    if metadata.Poster.length > 0 then
      let posterPath := filepath.Join [dir, "temp_poster.jpg".toList]
      let r := osWriteFile env posterPath w
      if !r.1 then { result := .error .writeFailed, world := r.2 }
      else
        let run := remuxAndReplace env filePath dir ext tempFile [filePath, posterPath]
          (ffmpegArgs filePath posterPath tempFile metadata) metadata r.2
        -- the deferred `os.Remove(posterPath)`
        { result := run.result, world := (osRemove env posterPath run.world).2 }
    else
      remuxAndReplace env filePath dir ext tempFile [filePath]
        (ffmpegArgs filePath [] tempFile metadata) metadata w

/-- The number of bytes of the UTF-8 encoding of `s`: the value of Go's `len(s)`. -/
def byteLen (s : GoString) : Nat := (s.map Char.utf8Size).sum

/-- The slice `s[:n]` of a Go string, whose bounds count bytes: the characters
that lie wholly in the first `n` bytes. (When the cut falls inside a multi-byte
character Go keeps the cut bytes, which are no valid UTF-8; they are dropped.) -/
def bytePrefix : Nat → GoString → GoString
  | _, [] => []
  | n, c :: cs => if c.utf8Size ≤ n then c :: bytePrefix (n - c.utf8Size) cs else []

/-- The director loop of `ConvertMovieDetailsToMetadata`: stop at the first crew
entry whose job is `Director`. -/
def directorLoop : List tmdb.CrewMember → GoString
  | [] => []
  | crew :: rest => if crew.Job = "Director".toList then crew.Name else directorLoop rest

/-- The actor loop of `ConvertMovieDetailsToMetadata`, at index `i` with the
names collected so far. -/
def actorLoop : Nat → List tmdb.CastMember → List GoString → List GoString
  | _, [], actors => actors
  | i, cast :: rest, actors =>
    if i ≥ 5 then actors else actorLoop (i + 1) rest (actors ++ [cast.Name])

/-- The genre loop of `ConvertMovieDetailsToMetadata`. -/
def genreLoop : List tmdb.Genre → List GoString → List GoString
  | [], genres => genres
  | genre :: rest, genres => genreLoop rest (genres ++ [genre.Name])

/-- The function `metadata.ConvertMovieDetailsToMetadata`. -/
def ConvertMovieDetailsToMetadata (details : tmdb.MovieDetails) (posterData : List Nat) :
    MovieMetadata :=
  let year := if byteLen details.ReleaseDate ≥ 4 then bytePrefix 4 details.ReleaseDate else []
  let director := directorLoop details.Credits.Crew
  let actors := actorLoop 0 details.Credits.Cast []
  let genres := genreLoop details.Genres []
  { Title := details.Title
    Year := year
    Director := director
    Actors := strings.Join actors ", ".toList
    Genres := strings.Join genres ", ".toList
    Poster := posterData }

end metadata

open strings filepath regexp parser tmdb metadata

/-! ## Predicates on paths -/

/-- The environment in which every external operation succeeds. -/
def allOk : Env :=
  { lookPathOk := true, writeOk := true, writeLeavesFile := false, ffmpegOk := true,
    ffmpegLeavesFile := false, removeOk := fun _ => true, renameOk := true }

/-- The tag record of the film `Face/Off` (1997), without poster. -/
def faceOff : MovieMetadata :=
  { Title := "Face/Off".toList, Year := "1997".toList, Director := "John Woo".toList,
    Actors := [], Genres := [], Poster := [] }

/-- A search service whose state counts the calls; every answer holds the entry 7
and an entry numbered by the call. -/
def countingService : Service Nat :=
  fun term _ n =>
    (.ok [{ ID := 7, Title := term, ReleaseDate := [], Overview := [], PosterPath := [] },
          { ID := n, Title := term, ReleaseDate := [], Overview := [], PosterPath := [] }],
     n + 1)

/-- The result list of the query `The Matrix p` against the counting service. -/
def countingResults : List SearchResult :=
  [{ ID := 7, Title := "The Matrix p".toList, ReleaseDate := [], Overview := [],
     PosterPath := [] },
   { ID := 0, Title := "The Matrix p".toList, ReleaseDate := [], Overview := [],
     PosterPath := [] },
   { ID := 1, Title := "The Matrix".toList, ReleaseDate := [], Overview := [],
     PosterPath := [] },
   { ID := 2, Title := "The".toList, ReleaseDate := [], Overview := [], PosterPath := [] }]

/-- C1 (the code departs from the claim): on the path
`The.Matrix.1999.1080p.BluRay.x264-GROUP.mkv` the function `ParseFilename` returns the
year `1999` but the title `The Matrix p`, not `The Matrix`: `ReplaceAllString` deletes
every match of the year pattern, so the digits `1080` of the marker `1080p` go too,
the marker is no longer recognised and its `p` stays in the title. -/
theorem C1_ParseFilename_matrix :
    ParseFilename "The.Matrix.1999.1080p.BluRay.x264-GROUP.mkv".toList
      = { Title := "The Matrix p".toList, Year := "1999".toList } := by
  decide

/-- C3 (the code departs from the claim): on the empty query and on a query of one
blank, whatever the search service does, `FuzzySearch` panics while it computes its
search terms (`strings.Fields(query)[0]` on an empty slice); it sends nothing and
returns no result list. -/
theorem C3_FuzzySearch_panics_without_field {σ : Type} (SearchMovies : Service σ)
    (year : GoString) (s : σ) :
    (FuzzySearch SearchMovies [] year s).outcome = .panic ∧
    (FuzzySearch SearchMovies [] year s).sent = [] ∧
    (FuzzySearch SearchMovies [' '] year s).outcome = .panic ∧
    (FuzzySearch SearchMovies [' '] year s).sent = [] := by
  refine ⟨rfl, rfl, rfl, rfl⟩

/-- C7: when `ffmpeg` is not found, `UpdateMovieFile` returns an error, issues no
operation on the file system (no poster written, no output created, nothing removed
or renamed) and leaves the set of existing paths as it was; poster bytes or not. -/
theorem C7_UpdateMovieFile_no_ffmpeg (env : Env) (fs : FS) (filePath : GoString)
    (metadata : MovieMetadata) (h : env.lookPathOk = false) :
    (UpdateMovieFile env fs filePath metadata).result = .error .ffmpegMissing ∧
    (UpdateMovieFile env fs filePath metadata).world.ops = [] ∧
    (UpdateMovieFile env fs filePath metadata).world.fs = fs := by
  simp [UpdateMovieFile, h]

/-- Witness of C7: a run with poster bytes in an environment without `ffmpeg`. -/
theorem C7_UpdateMovieFile_no_ffmpeg_witness :
    let env : Env := { lookPathOk := false, writeOk := true, writeLeavesFile := false,
                       ffmpegOk := true, ffmpegLeavesFile := false,
                       removeOk := fun _ => true, renameOk := true }
    let md : MovieMetadata := { Title := "Heat".toList, Year := "1995".toList, Director := [],
                                Actors := [], Genres := [], Poster := [255, 216] }
    env.lookPathOk = false ∧
    (UpdateMovieFile env ["/m/heat.mkv".toList] "/m/heat.mkv".toList md).result
      = .error .ffmpegMissing ∧
    (UpdateMovieFile env ["/m/heat.mkv".toList] "/m/heat.mkv".toList md).world.ops = [] ∧
    (UpdateMovieFile env ["/m/heat.mkv".toList] "/m/heat.mkv".toList md).world.fs
      = ["/m/heat.mkv".toList] :=
  ⟨rfl, C7_UpdateMovieFile_no_ffmpeg _ _ _ _ rfl⟩

/-- C5 (the code departs from the claim): the source `/movies/face.off.1997.mkv` is
remuxed and removed, then the rename of the temporary output to
`/movies/Face/Off (1997).mkv` fails; `UpdateMovieFile` returns an error and the
original file, which existed before the call, no longer exists. -/
theorem C5_original_lost_on_rename_failure :
    let env : Env := { allOk with renameOk := false }
    let src : GoString := "/movies/face.off.1997.mkv".toList
    let run := UpdateMovieFile env [src] src faceOff
    run.result = .error .renameFailed ∧ src ∈ [src] ∧ src ∉ run.world.fs ∧
    run.world.ops.getLast? =
      some (.rename "/movies/temp_metadata.mkv".toList "/movies/Face/Off (1997).mkv".toList) := by
  decide

/-- C8 (the code departs from the claim): with poster bytes, when the final rename
fails `UpdateMovieFile` returns an error, the temporary poster is gone, but the
temporary output `temp_metadata.mkv` is still in the source directory; the same
holds for the output a failed `ffmpeg` run leaves behind. -/
theorem C8_temp_output_left_behind :
    let src : GoString := "/movies/face.off.1997.mkv".toList
    let md : MovieMetadata := { faceOff with Poster := [255, 216, 255] }
    let run1 := UpdateMovieFile { allOk with renameOk := false } [src] src md
    let run2 := UpdateMovieFile { allOk with ffmpegOk := false, ffmpegLeavesFile := true }
      [src] src md
    (run1.result = .error .renameFailed ∧
      "/movies/temp_metadata.mkv".toList ∈ run1.world.fs ∧
      "/movies/temp_poster.jpg".toList ∉ run1.world.fs) ∧
    (run2.result = .error .ffmpegFailed ∧
      "/movies/temp_metadata.mkv".toList ∈ run2.world.fs ∧
      "/movies/temp_poster.jpg".toList ∉ run2.world.fs) := by
  decide

/-- Whatever follows, the argument vector starts with the source as input 0 and
the directive `-map 0:v`. -/
theorem ffmpegArgs_head (filePath posterPath tempFile : GoString) (md : MovieMetadata) :
    "0:v".toList ∈ ffmpeg.mapValues (ffmpegArgs filePath posterPath tempFile md) := by
  unfold ffmpegArgs
  by_cases hp : md.Poster.length > 0
  · simp [hp, ffmpeg.mapValues, ffmpeg.takesValue]
  · simp [hp, ffmpeg.mapValues, ffmpeg.takesValue]

/-- C6 (the code departs from the claim): for every source path, poster path, output
path and tag record, with or without poster bytes, the argument vector maps every
attached-picture stream of the source (a video stream with the `attached_pic`
disposition) into the output: its directive `-map 0:v` matches all video streams of
input 0, cover art included. -/
theorem C6_attached_picture_is_mapped (filePath posterPath tempFile : GoString)
    (md : MovieMetadata) (streams : List ffmpeg.Stream) (st : ffmpeg.Stream)
    (hmem : st ∈ streams) (hpic : st = { kind := .video, attachedPic := true }) :
    st ∈ ffmpeg.selected (ffmpegArgs filePath posterPath tempFile md) 0 streams := by
  subst hpic
  unfold ffmpeg.selected
  rw [List.mem_filter]
  refine ⟨hmem, ?_⟩
  rw [List.any_eq_true]
  exact ⟨"0:v".toList, ffmpegArgs_head filePath posterPath tempFile md, by decide⟩

/-- Witness of C6: a source with a film, a sound track and embedded cover art, tagged
without a new poster; the cover art is among the streams mapped from input 0. -/
theorem C6_attached_picture_is_mapped_witness :
    let streams : List ffmpeg.Stream :=
      [{ kind := .video, attachedPic := false }, { kind := .audio, attachedPic := false },
       { kind := .video, attachedPic := true }]
    ({ kind := .video, attachedPic := true } : ffmpeg.Stream) ∈ streams ∧
    ({ kind := .video, attachedPic := true } : ffmpeg.Stream) ∈
      ffmpeg.selected
        (ffmpegArgs "/movies/heat.mp4".toList [] "/movies/temp_metadata.mp4".toList faceOff)
        0 streams :=
  ⟨by decide, C6_attached_picture_is_mapped _ _ _ _ _ _ (by decide) rfl⟩

/-- The director loop returns the name of the first crew entry whose job is
`Director`. -/
theorem directorLoop_eq_find (crew : List CrewMember) :
    directorLoop crew =
      match crew.find? (fun c => decide (c.Job = "Director".toList)) with
      | some c => c.Name
      | none => [] := by
  induction crew with
  | nil => rfl
  | cons c rest ih =>
    by_cases h : c.Job = "Director".toList
    · have hp : (fun c : CrewMember => decide (c.Job = "Director".toList)) c = true :=
        decide_eq_true h
      rw [directorLoop, if_pos h, List.find?_cons_of_pos rest hp]
    · have hn : ¬ (fun c : CrewMember => decide (c.Job = "Director".toList)) c = true := by
        simpa using h
      rw [directorLoop, if_neg h, ih, List.find?_cons_of_neg rest hn]

/-- C9: for every details record and poster buffer, `Director` is the name of the
first crew entry, in list order, whose job is exactly `Director`, and the empty
string when there is none; for the crew A (Producer), B (Director), C (Director) it
is `B`. -/
theorem C9_director_first_match (details : MovieDetails) (posterData : List Nat)
    (title date : GoString) :
    (ConvertMovieDetailsToMetadata details posterData).Director =
      (match details.Credits.Crew.find? (fun c => decide (c.Job = "Director".toList)) with
       | some c => c.Name
       | none => []) ∧
    (ConvertMovieDetailsToMetadata
      { ID := 1, Title := title, ReleaseDate := date, Overview := [], PosterPath := [],
        Genres := [],
        Credits := { Cast := [],
                     Crew := [{ Name := "A".toList, Job := "Producer".toList },
                              { Name := "B".toList, Job := "Director".toList },
                              { Name := "C".toList, Job := "Director".toList }] } }
      posterData).Director = "B".toList := by
  refine ⟨?_, ?_⟩
  · simp only [ConvertMovieDetailsToMetadata]
    exact directorLoop_eq_find _
  · simp only [ConvertMovieDetailsToMetadata]
    decide

/-- The actor loop appends the names of the entries before index 5. -/
theorem actorLoop_eq_take (cast : List CastMember) (i : Nat) (actors : List GoString) :
    actorLoop i cast actors = actors ++ (cast.take (5 - i)).map (fun c => c.Name) := by
  induction cast generalizing i actors with
  | nil => simp [actorLoop]
  | cons c rest ih =>
    by_cases h : i ≥ 5
    · have h0 : 5 - i = 0 := by omega
      simp [actorLoop, h, h0]
    · have h1 : 5 - i = (5 - (i + 1)) + 1 := by omega
      rw [actorLoop, if_neg h, ih, h1, List.take_succ_cons]
      simp

/-- C10: for every details record, `Actors` is the names of the first
`min 5 (length of the cast)` cast entries, in list order, joined by `, `; that is
never more than five names; it is empty for an empty cast; and for a cast of eight
it is the first five names. -/
theorem C10_actors_first_five (details : MovieDetails) (posterData : List Nat)
    (a1 a2 a3 a4 a5 a6 a7 a8 : GoString) :
    (ConvertMovieDetailsToMetadata details posterData).Actors =
      strings.Join
        ((details.Credits.Cast.take (min 5 details.Credits.Cast.length)).map (fun c => c.Name))
        ", ".toList ∧
    ((details.Credits.Cast.take (min 5 details.Credits.Cast.length)).map
        (fun c => c.Name)).length ≤ 5 ∧
    (ConvertMovieDetailsToMetadata
      { details with Credits := { details.Credits with Cast := [] } } posterData).Actors = [] ∧
    (ConvertMovieDetailsToMetadata
      { details with Credits := { details.Credits with
          Cast := [⟨a1⟩, ⟨a2⟩, ⟨a3⟩, ⟨a4⟩, ⟨a5⟩, ⟨a6⟩, ⟨a7⟩, ⟨a8⟩] } } posterData).Actors =
      a1 ++ ", ".toList ++ a2 ++ ", ".toList ++ a3 ++ ", ".toList ++ a4 ++ ", ".toList ++ a5 := by
  refine ⟨?_, ?_, ?_, ?_⟩
  · simp only [ConvertMovieDetailsToMetadata, actorLoop_eq_take]
    congr 2
    simp only [Nat.sub_zero, List.nil_append]
    by_cases h : 5 ≤ details.Credits.Cast.length
    · rw [Nat.min_eq_left h]
    · have h1 : details.Credits.Cast.length ≤ 5 := by omega
      rw [Nat.min_eq_right h1, List.take_of_length_le h1, List.take_of_length_le (le_refl _)]
  · simp only [List.length_map, List.length_take]
    omega
  · simp [ConvertMovieDetailsToMetadata, actorLoop, strings.Join]
  · simp [ConvertMovieDetailsToMetadata, actorLoop, strings.Join]

/-! ### Fuzzy search -/

/-- Every field that `strings.Fields` returns is non-empty. -/
theorem fieldsAux_ne_nil (s cur : GoString) : ∀ f ∈ fieldsAux s cur, f ≠ [] := by
  induction s generalizing cur with
  | nil =>
    intro f hf
    cases cur with
    | nil => simp [fieldsAux] at hf
    | cons c cs =>
      simp [fieldsAux] at hf
      subst hf
      simp
  | cons c cs ih =>
    intro f hf
    rw [fieldsAux] at hf
    by_cases hsp : isSpace c = true
    · rw [if_pos hsp] at hf
      cases cur with
      | nil => exact ih [] f (by simpa using hf)
      | cons d ds =>
        simp only [List.isEmpty_cons, Bool.false_eq_true, if_false, List.mem_cons] at hf
        rcases hf with hf | hf
        · subst hf
          simp
        · exact ih [] f hf
    · rw [if_neg hsp] at hf
      exact ih _ f hf

/-- The code's inner loop against the specification's wording: when `seenIDs` holds
the IDs of the entries in `earlier`, the loop appends to `allResults` just the
entries the specification keeps. -/
theorem collect_spec (results : List SearchResult) :
    ∀ (seenIDs : List Int) (allResults earlier : List SearchResult),
      (∀ i, i ∈ seenIDs ↔ i ∈ earlier.map (fun r => r.ID)) →
      (collect seenIDs allResults results).2 = allResults ++ specDropSeen earlier results ∧
      (∀ i, i ∈ (collect seenIDs allResults results).1 ↔
        i ∈ (earlier ++ results).map (fun r => r.ID)) := by
  induction results with
  | nil =>
    intro seenIDs allResults earlier h
    simpa [collect, specDropSeen] using h
  | cons r rs ih =>
    intro seenIDs allResults earlier h
    have hany : earlier.any (fun e => e.ID == r.ID) = seenIDs.contains r.ID := by
      rw [Bool.eq_iff_iff]
      simp only [List.any_eq_true, beq_iff_eq, List.contains_iff_exists_mem_beq]
      constructor
      · rintro ⟨e, he, heq⟩
        have : r.ID ∈ seenIDs := (h r.ID).2 (List.mem_map.2 ⟨e, he, heq⟩)
        exact ⟨r.ID, this, rfl⟩
      · rintro ⟨a, ha, heq⟩
        have ha2 : r.ID ∈ seenIDs := by rw [heq]; exact ha
        obtain ⟨e, he, heq2⟩ := List.mem_map.1 ((h r.ID).1 ha2)
        exact ⟨e, he, heq2⟩
    by_cases hs : seenIDs.contains r.ID = true
    · have h2 : ∀ i, i ∈ seenIDs ↔ i ∈ (earlier ++ [r]).map (fun r => r.ID) := by
        intro i
        simp only [List.map_append, List.map_cons, List.map_nil, List.mem_append,
          List.mem_singleton]
        constructor
        · intro hi
          exact Or.inl ((h i).1 hi)
        · rintro (hi | hi)
          · exact (h i).2 hi
          · rw [hi]
            simpa using hs
      obtain ⟨e1, e2⟩ := ih seenIDs allResults (earlier ++ [r]) h2
      rw [collect, if_pos hs, specDropSeen, hany, if_pos hs]
      refine ⟨e1, ?_⟩
      intro i
      rw [e2 i]
      simp
    · have h2 : ∀ i, i ∈ r.ID :: seenIDs ↔ i ∈ (earlier ++ [r]).map (fun r => r.ID) := by
        intro i
        simp only [List.map_append, List.map_cons, List.map_nil, List.mem_append,
          List.mem_singleton, List.mem_cons]
        rw [h i]
        tauto
      obtain ⟨e1, e2⟩ := ih (r.ID :: seenIDs) (allResults ++ [r]) (earlier ++ [r]) h2
      rw [collect, if_neg hs, specDropSeen, hany, if_neg hs]
      refine ⟨by rw [e1]; simp, ?_⟩
      intro i
      rw [e2 i]
      simp

/-- The specification's deduplication distributes over a concatenation. -/
theorem specDropSeen_append (l1 l2 : List SearchResult) :
    ∀ earlier, specDropSeen earlier (l1 ++ l2) =
      specDropSeen earlier l1 ++ specDropSeen (earlier ++ l1) l2 := by
  induction l1 with
  | nil => intro earlier; simp [specDropSeen]
  | cons r rs ih =>
    intro earlier
    have e : earlier ++ r :: rs = (earlier ++ [r]) ++ rs := by simp
    rw [List.cons_append, specDropSeen, specDropSeen, ih, e]
    split
    · rfl
    · rfl

/-- The kept entries have pairwise different IDs, none of them an earlier one. -/
theorem specDropSeen_nodup (l : List SearchResult) :
    ∀ earlier, ((specDropSeen earlier l).map (fun r => r.ID)).Nodup ∧
      ∀ x ∈ specDropSeen earlier l, x.ID ∉ earlier.map (fun r => r.ID) := by
  induction l with
  | nil => intro earlier; simp [specDropSeen]
  | cons r rs ih =>
    intro earlier
    obtain ⟨n1, n2⟩ := ih (earlier ++ [r])
    rw [specDropSeen]
    by_cases hany : earlier.any (fun e => e.ID == r.ID) = true
    · rw [if_pos hany]
      refine ⟨n1, ?_⟩
      intro x hx hmem
      exact n2 x hx (by simp only [List.map_append, List.mem_append]; exact Or.inl hmem)
    · rw [if_neg hany]
      constructor
      · rw [List.map_cons, List.nodup_cons]
        refine ⟨?_, n1⟩
        intro hmem
        obtain ⟨x, hx, hxe⟩ := List.mem_map.1 hmem
        exact n2 x hx (by simp [hxe])
      · intro x hx
        rcases List.mem_cons.1 hx with hx | hx
        · subst hx
          intro hmem
          apply hany
          obtain ⟨e, he, heq⟩ := List.mem_map.1 hmem
          exact List.any_eq_true.2 ⟨e, he, by simpa using heq⟩
        · intro hmem
          exact n2 x hx (by simp only [List.map_append, List.mem_append]; exact Or.inl hmem)

/-- One round of the outer loop on a non-empty term. -/
theorem searchLoop_cons {σ : Type} (SearchMovies : Service σ) (year term : GoString)
    (rest : List GoString) (s : σ) (seenIDs : List Int) (allResults : List SearchResult)
    (sent : List GoString) (h : term ≠ []) :
    searchLoop SearchMovies year (term :: rest) s seenIDs allResults sent =
      match SearchMovies term year s with
      | (.error e, s1) => { outcome := .err e, state := s1, sent := sent ++ [term] }
      | (.ok results, s1) =>
        searchLoop SearchMovies year rest s1 (collect seenIDs allResults results).1
          (collect seenIDs allResults results).2 (sent ++ [term]) := by
  rw [searchLoop]
  have : term.isEmpty = false := by
    cases term with
    | nil => exact absurd rfl h
    | cons c cs => rfl
  rw [this]
  rfl

/-- With a first field, `FuzzySearch` runs the loop on three non-empty terms. -/
theorem FuzzySearch_terms {σ : Type} (SearchMovies : Service σ) (query year : GoString) (s : σ)
    (first : GoString) (hf : (Fields query)[0]? = some first) :
    FuzzySearch SearchMovies query year s =
        searchLoop SearchMovies year
          [query, strings.Join ((Fields query).take 2) [' '], first] s [] [] [] ∧
      query ≠ [] ∧ strings.Join ((Fields query).take 2) [' '] ≠ [] ∧ first ≠ [] := by
  have hq : query ≠ [] := by
    rintro rfl
    simp [Fields, fieldsAux] at hf
  obtain ⟨tl, htl⟩ : ∃ tl, Fields query = first :: tl := by
    cases hF : Fields query with
    | nil => rw [hF] at hf; simp at hf
    | cons a tl =>
      rw [hF] at hf
      simp at hf
      exact ⟨tl, by rw [hf]⟩
  have hfirst : first ≠ [] :=
    fieldsAux_ne_nil query [] first (by
      show first ∈ Fields query
      rw [htl]
      exact List.mem_cons_self _ _)
  have hmin : (Fields query).take (min 2 (Fields query).length) = (Fields query).take 2 := by
    rw [List.take_eq_take]
    simp
  refine ⟨?_, hq, ?_, hfirst⟩
  · simp only [FuzzySearch, hf, hmin]
  · rw [htl]
    cases first with
    | nil => exact absurd rfl hfirst
    | cons c cs => simp [strings.Join]

/-- C2: for every query, year hint and search service, a result list that
`FuzzySearch` returns has pairwise different IDs and is the concatenation of the
result lists of the three tiers (the full query, its first two fields joined by a
blank, its first field), searched in that order, with every entry removed whose ID
occurred earlier in the concatenation. -/
theorem C2_FuzzySearch_first_seen {σ : Type} (SearchMovies : Service σ)
    (query year : GoString) (s : σ) (res : List SearchResult)
    (h : (FuzzySearch SearchMovies query year s).outcome = .ok res) :
    (res.map (fun r => r.ID)).Nodup ∧
    ∃ first ra rb rc sa sb sc,
      (Fields query)[0]? = some first ∧
      SearchMovies query year s = (.ok ra, sa) ∧
      SearchMovies (strings.Join ((Fields query).take 2) [' ']) year sa = (.ok rb, sb) ∧
      SearchMovies first year sb = (.ok rc, sc) ∧
      (FuzzySearch SearchMovies query year s).sent =
        [query, strings.Join ((Fields query).take 2) [' '], first] ∧
      res = specFirstSeen (ra ++ rb ++ rc) := by
  cases hf : (Fields query)[0]? with
  | none => simp [FuzzySearch, hf] at h
  | some first =>
    obtain ⟨hrun, hq, hb, hc⟩ := FuzzySearch_terms SearchMovies query year s first hf
    rw [hrun, searchLoop_cons _ _ _ _ _ _ _ _ hq] at h
    cases hA : SearchMovies query year s with
    | mk xa sa =>
    rw [hA] at h
    cases xa with
    | error e => simp at h
    | ok ra =>
    simp only at h
    rw [searchLoop_cons _ _ _ _ _ _ _ _ hb] at h
    cases hB : SearchMovies (strings.Join ((Fields query).take 2) [' ']) year sa with
    | mk xb sb =>
    rw [hB] at h
    cases xb with
    | error e => simp at h
    | ok rb =>
    simp only at h
    rw [searchLoop_cons _ _ _ _ _ _ _ _ hc] at h
    cases hC : SearchMovies first year sb with
    | mk xc sc =>
    rw [hC] at h
    cases xc with
    | error e => simp at h
    | ok rc =>
    simp only [searchLoop] at h
    obtain ⟨a1, a2⟩ := collect_spec ra [] [] [] (by simp)
    obtain ⟨b1, b2⟩ := collect_spec rb (collect [] [] ra).1 (collect [] [] ra).2 ([] ++ ra) a2
    obtain ⟨c1, _⟩ := collect_spec rc _ _ (([] ++ ra) ++ rb) b2
    have hres : res = specFirstSeen (ra ++ rb ++ rc) := by
      have h' := Outcome.ok.inj h
      rw [← h', c1, b1, a1]
      simp only [specFirstSeen, List.nil_append]
      rw [specDropSeen_append (ra ++ rb) rc [], specDropSeen_append ra rb []]
      simp
    have hsent : (FuzzySearch SearchMovies query year s).sent =
        [query, strings.Join ((Fields query).take 2) [' '], first] := by
      rw [hrun, searchLoop_cons _ _ _ _ _ _ _ _ hq, hA]
      simp only
      rw [searchLoop_cons _ _ _ _ _ _ _ _ hb, hB]
      simp only
      rw [searchLoop_cons _ _ _ _ _ _ _ _ hc, hC]
      simp [searchLoop]
    refine ⟨?_, first, ra, rb, rc, sa, sb, sc, rfl, rfl, hB, hC, hsent, hres⟩
    rw [hres]
    exact (specDropSeen_nodup _ []).1

/-- Witness of C2: the query `The Matrix p` against the counting service. -/
theorem C2_FuzzySearch_first_seen_witness :
    (FuzzySearch countingService "The Matrix p".toList "1999".toList 0).outcome =
      .ok countingResults ∧
    (countingResults.map (fun r => r.ID)).Nodup :=
  ⟨by decide, (C2_FuzzySearch_first_seen countingService "The Matrix p".toList "1999".toList 0
    countingResults (by decide)).1⟩

/-! ### Paths -/

/-- C11 (the code departs from the claim): the year returned is that of the first
year token, but the removal step deletes every match of the year pattern, not the
first alone. For `2001.A.Space.Odyssey.1968.mkv` the cleaned name is
`2001 A Space Odyssey 1968`, the year is `2001`, and the removal leaves
` A Space Odyssey `: the second year `1968`, which no quality marker precedes, is
gone from the title. For `Heat.1995.2160p.mkv` the digits `2160` of the later
token `2160p` are deleted as well and its `p` ends up in the title. -/
theorem C11_every_year_match_removed :
    (let name : GoString := "2001 A Space Odyssey 1968".toList
     ReplaceAll (ReplaceAll
         (TrimSuffix (Base "2001.A.Space.Odyssey.1968.mkv".toList)
           (Ext (Base "2001.A.Space.Odyssey.1968.mkv".toList))) '.' ' ') '_' ' ' = name ∧
     yearRegex.FindStringSubmatch name = ["2001".toList, "2001".toList] ∧
     yearRegex.ReplaceAllString name [] = " A Space Odyssey ".toList ∧
     ParseFilename "2001.A.Space.Odyssey.1968.mkv".toList
       = { Title := "A Space Odyssey".toList, Year := "2001".toList }) ∧
    (let name : GoString := "Heat 1995 2160p".toList
     ReplaceAll (ReplaceAll
         (TrimSuffix (Base "Heat.1995.2160p.mkv".toList)
           (Ext (Base "Heat.1995.2160p.mkv".toList))) '.' ' ') '_' ' ' = name ∧
     yearRegex.FindStringSubmatch name = ["1995".toList, "1995".toList] ∧
     yearRegex.ReplaceAllString name [] = "Heat  p".toList ∧
     ParseFilename "Heat.1995.2160p.mkv".toList
       = { Title := "Heat p".toList, Year := "1995".toList }) := by
  decide

end MovieMetadataAdder
